import Mathlib

/-!
Verification of the core algorithms of the `vsm_04_contextualreps` notebook:
the span locator `find_sublist_indices`, the pooling functions described for
`vsm.mean_pooling` / `vsm.max_pooling` / `vsm.min_pooling` / `vsm.last_pooling`,
and the aggregated-representation computation (`sailing_rep`).

Token ids are modelled as integers, hidden representations as lists of
rationals (one rational per dimension), and a represented corpus text as a
pair of its token-id sequence and its per-token representation sequence.
Fallible operations return `Option`.
-/

namespace VSM04

/-- Embedding of `find_sublist_indices(sublist, mainlist)` from the notebook:
iterate `i` over `range(0, len(mainlist) - len(sublist) + 1)`, and append
`(i, i + len(sublist))` to the accumulator whenever the slice
`mainlist[i : i + len(sublist)]` equals `sublist`.  Python's `range` clamps a
negative bound to the empty range, which `Nat` truncated subtraction in
`mainlist.length + 1 - sublist.length` reproduces exactly. -/
def find_sublist_indices (sublist mainlist : List ℤ) : List (ℕ × ℕ) :=
  (List.range (mainlist.length + 1 - sublist.length)).foldl
    (fun indices i =>
      if (mainlist.drop i).take sublist.length = sublist then
        indices ++ [(i, i + sublist.length)]
      else indices)
    []

/-- Elementwise mean of a non-empty collection of vectors (empty input yields
the empty vector; callers guard emptiness separately).  This is the value a
successful mean pooling produces. -/
def meanVec (vs : List (List ℚ)) : List ℚ :=
  match vs with
  | [] => []
  | v :: tl =>
      (tl.foldl (fun a w => a.zipWith (· + ·) w) v).map
        (fun x => x / ((tl.length + 1 : ℕ) : ℚ))

/-- Modelled from the spec: `vsm.mean_pooling` is not among the repository
sources (only the notebook that calls it is); per the spec it is the
elementwise average across the N vectors, and N = 0 is invalid input that
fails with an InvalidInput error, modelled as `none`. -/
def mean_pooling (vs : List (List ℚ)) : Option (List ℚ) :=
  match vs with
  | [] => none
  | v :: tl => some (meanVec (v :: tl))

/-- Modelled from the spec: `vsm.max_pooling` is not among the repository
sources; per the spec it is the elementwise maximum across the N vectors, and
N = 0 is invalid input, modelled as `none`. -/
def max_pooling (vs : List (List ℚ)) : Option (List ℚ) :=
  match vs with
  | [] => none
  | v :: tl => some (tl.foldl (fun a w => a.zipWith max w) v)

/-- Modelled from the spec: `vsm.min_pooling` is not among the repository
sources; per the spec it is the elementwise minimum across the N vectors, and
N = 0 is invalid input, modelled as `none`. -/
def min_pooling (vs : List (List ℚ)) : Option (List ℚ) :=
  match vs with
  | [] => none
  | v :: tl => some (tl.foldl (fun a w => a.zipWith min w) v)

/-- Modelled from the spec: `vsm.last_pooling` is not among the repository
sources; per the spec it selects the final vector, and N = 0 is invalid input,
modelled as `none`. -/
def last_pooling (vs : List (List ℚ)) : Option (List ℚ) :=
  vs.getLast?

/-- Embedding of the occurrence-collection loop of the aggregated approach in
the notebook: for each corpus text (its token ids paired with its per-token
layer representations), find all spans of the target and append the pooled
slice of the representation sequence for each span, in loop order. -/
def occurrence_reps (t : List ℤ) (corpus : List (List ℤ × List (List ℚ))) :
    List (Option (List ℚ)) :=
  corpus.foldl
    (fun acc tr =>
      (find_sublist_indices t tr.1).foldl
        (fun acc2 se => acc2 ++ [mean_pooling ((tr.2.drop se.1).take (se.2 - se.1))])
        acc)
    []

/-- Sequence a list of fallible vectors: `some` of the list of values when all
succeeded, `none` as soon as one failed (a Python exception propagates). -/
def collectSome : List (Option (List ℚ)) → Option (List (List ℚ))
  | [] => some []
  | none :: _ => none
  | some v :: tl => (collectSome tl).map (fun vs => v :: vs)

/-- Embedding of `sailing_rep` from the notebook: gather the pooled occurrence
vectors, then take their elementwise mean (`torch.mean(torch.cat(...), axis=0)`;
`torch.cat` of an empty list raises, modelled as `none`). -/
def sailing_rep (t : List ℤ) (corpus : List (List ℤ × List (List ℚ))) :
    Option (List ℚ) :=
  match collectSome (occurrence_reps t corpus) with
  | none => none
  | some occs => mean_pooling occs

/-- The occurrence spans of the target in one corpus text, each sliced out of
that text's representation sequence, in span-start order; texts in corpus
order.  This is the spec-level description of the occurrence slices. -/
def occurrence_slices (t : List ℤ) (corpus : List (List ℤ × List (List ℚ))) :
    List (List (List ℚ)) :=
  (corpus.map (fun tr =>
    (find_sublist_indices t tr.1).map
      (fun se => (tr.2.drop se.1).take (se.2 - se.1)))).flatten

/-- Modelled from the spec: the notebook builds only the single "sailing" row,
while the spec's Aggregated VSM Builder maps every vocabulary word
independently to its aggregated vector; a word is represented by its target
token-id subsequence and an unrepresentable row is `none`. -/
def aggregated_vsm (targets : List (List ℤ))
    (corpus : List (List ℤ × List (List ℚ))) : List (Option (List ℚ)) :=
  targets.map (fun t => sailing_rep t corpus)

/-- Folding a conditional append over a list is filtering followed by mapping. -/
theorem foldl_cond_append_eq {α β : Type} (p : α → Prop) [DecidablePred p]
    (g : α → β) :
    ∀ (l : List α) (acc : List β),
      l.foldl (fun a i => if p i then a ++ [g i] else a) acc
        = acc ++ (l.filter (fun i => decide (p i))).map g := by
  intro l
  induction l with
  | nil => intro acc; simp
  | cons x xs ih =>
      intro acc
      by_cases hx : p x
      · simp [hx, ih]
      · simp [hx, ih]

/-- Folding a plain append over a list is mapping. -/
theorem foldl_append_map {α β : Type} (g : α → β) :
    ∀ (l : List α) (acc : List β),
      l.foldl (fun a x => a ++ [g x]) acc = acc ++ l.map g := by
  intro l
  induction l with
  | nil => intro acc; simp
  | cons x xs ih => intro acc; simp [ih]

/-- Functional characterization of `find_sublist_indices`: filter the candidate
start positions, then pair each with its end offset. -/
theorem find_sublist_indices_eq (sublist mainlist : List ℤ) :
    find_sublist_indices sublist mainlist
      = ((List.range (mainlist.length + 1 - sublist.length)).filter
          (fun i => decide ((mainlist.drop i).take sublist.length = sublist))).map
          (fun i => (i, i + sublist.length)) := by
  simpa using foldl_cond_append_eq
    (fun i => (mainlist.drop i).take sublist.length = sublist)
    (fun i => (i, i + sublist.length))
    (List.range (mainlist.length + 1 - sublist.length)) []

/-- Membership in the result of `find_sublist_indices`: exactly the pairs
`(i, i + len target)` with the span inside the haystack and the slice equal to
the target. -/
theorem mem_find_sublist_indices (sublist mainlist : List ℤ) (p : ℕ × ℕ) :
    p ∈ find_sublist_indices sublist mainlist ↔
      p.2 = p.1 + sublist.length ∧ p.1 + sublist.length ≤ mainlist.length ∧
        (mainlist.drop p.1).take sublist.length = sublist := by
  rw [find_sublist_indices_eq]
  simp only [List.mem_map, List.mem_filter, List.mem_range, decide_eq_true_eq]
  constructor
  · rintro ⟨i, ⟨hi, hslice⟩, rfl⟩
    refine ⟨rfl, by omega, hslice⟩
  · rintro ⟨h2, hle, hslice⟩
    refine ⟨p.1, ⟨by omega, hslice⟩, ?_⟩
    cases p with
    | mk a b => simp at h2; simp [h2]

/-- The reported spans are strictly increasing in their start positions. -/
theorem find_sublist_indices_sorted (sublist mainlist : List ℤ) :
    (find_sublist_indices sublist mainlist).Pairwise (fun p q => p.1 < q.1) := by
  rw [find_sublist_indices_eq]
  apply List.Pairwise.map (fun i => (i, i + sublist.length))
    (fun a b (h : a < b) => h)
  exact (List.pairwise_lt_range _).filter _

/-- A slice of the haystack that equals a non-empty target must lie entirely
inside the haystack. -/
theorem slice_eq_bound (t h : List ℤ) (i : ℕ) (ht : t ≠ [])
    (hs : (h.drop i).take t.length = t) : i + t.length ≤ h.length := by
  have hlen := congrArg List.length hs
  simp only [List.length_take, List.length_drop] at hlen
  have hpos : 0 < t.length := List.length_pos.mpr ht
  omega

/-- The occurrence-collection loop produces exactly the per-slice poolings of
the occurrence slices, in the same order. -/
theorem occurrence_reps_eq (t : List ℤ) (corpus : List (List ℤ × List (List ℚ))) :
    occurrence_reps t corpus = (occurrence_slices t corpus).map mean_pooling := by
  suffices h : ∀ (cs : List (List ℤ × List (List ℚ))) (acc : List (Option (List ℚ))),
      cs.foldl
        (fun acc tr =>
          (find_sublist_indices t tr.1).foldl
            (fun acc2 se =>
              acc2 ++ [mean_pooling ((tr.2.drop se.1).take (se.2 - se.1))])
            acc)
        acc
      = acc ++ ((cs.map (fun tr =>
          (find_sublist_indices t tr.1).map
            (fun se => (tr.2.drop se.1).take (se.2 - se.1)))).flatten).map
              mean_pooling by
    simpa [occurrence_reps, occurrence_slices] using h corpus []
  intro cs
  induction cs with
  | nil => intro acc; simp
  | cons c cstl ih =>
      intro acc
      simp only [List.foldl_cons, List.map_cons, List.flatten_cons,
        List.map_append, ih, List.map_map]
      rw [foldl_append_map (fun se : ℕ × ℕ =>
        mean_pooling ((c.2.drop se.1).take (se.2 - se.1)))]
      simp [Function.comp_def, List.append_assoc]

/-- Mean pooling on a non-empty sequence succeeds with the elementwise mean. -/
theorem mean_pooling_of_ne_nil (vs : List (List ℚ)) (h : vs ≠ []) :
    mean_pooling vs = some (meanVec vs) := by
  cases vs with
  | nil => exact absurd rfl h
  | cons v tl => rfl

/-- Sequencing the per-slice poolings succeeds when every slice is non-empty,
yielding the elementwise means of the slices. -/
theorem collectSome_map_mean_pooling (L : List (List (List ℚ)))
    (hne : ∀ s ∈ L, s ≠ []) :
    collectSome (L.map mean_pooling) = some (L.map meanVec) := by
  induction L with
  | nil => rfl
  | cons s tl ih =>
      have hs : s ≠ [] := hne s (by simp)
      have htl := ih (fun x hx => hne x (by simp [hx]))
      simp only [List.map_cons, collectSome, htl, mean_pooling_of_ne_nil s hs,
        Option.map_some']

/-- With a non-empty target and representations covering every token, every
occurrence slice is non-empty. -/
theorem occurrence_slices_ne_nil (t : List ℤ)
    (corpus : List (List ℤ × List (List ℚ))) (ht : t ≠ [])
    (hw : ∀ tr ∈ corpus, tr.1.length ≤ tr.2.length) :
    ∀ s ∈ occurrence_slices t corpus, s ≠ [] := by
  intro s hs
  simp only [occurrence_slices, List.mem_flatten, List.mem_map] at hs
  obtain ⟨inner, ⟨tr, htr, rfl⟩, hsi⟩ := hs
  obtain ⟨se, hse, rfl⟩ := List.mem_map.mp hsi
  rw [mem_find_sublist_indices] at hse
  obtain ⟨h2, hle, hslice⟩ := hse
  have hw2 := hw tr htr
  have hpos : 0 < t.length := List.length_pos.mpr ht
  apply List.length_pos.mp
  simp only [List.length_take, List.length_drop]
  omega

/-- A target with no occurrence span anywhere in the corpus has no occurrence
slices at all. -/
theorem occurrence_slices_eq_nil (t : List ℤ)
    (corpus : List (List ℤ × List (List ℚ)))
    (hzero : ∀ tr ∈ corpus, find_sublist_indices t tr.1 = []) :
    occurrence_slices t corpus = [] := by
  simp only [occurrence_slices, List.flatten_eq_nil_iff, List.mem_map]
  rintro l ⟨tr, htr, rfl⟩
  simp [hzero tr htr]

/-- C1: for every non-empty target `t` and haystack `h`, `find_sublist_indices`
returns exactly the pairs `(i, i + len t)` at the start positions `i` whose
slice `h[i : i + len t]` equals `t` (equivalently, `i` ranges over
`0 .. len h - len t`), in strictly increasing order of `i`, with no other
pairs. -/
theorem C1_span_locator_exact (t h : List ℤ) (ht : t ≠ []) :
    (∀ p : ℕ × ℕ,
        p ∈ find_sublist_indices t h ↔
          p.2 = p.1 + t.length ∧ p.1 + t.length ≤ h.length ∧
            (h.drop p.1).take t.length = t)
      ∧ (find_sublist_indices t h).Pairwise (fun p q => p.1 < q.1) :=
  ⟨fun p => mem_find_sublist_indices t h p, find_sublist_indices_sorted t h⟩

/-- Witness for C1 at the concrete target `[1]` and haystack `[2, 1]`. -/
theorem C1_span_locator_exact_witness :
    (([1] : List ℤ) ≠ []) ∧
      ((∀ p : ℕ × ℕ,
          p ∈ find_sublist_indices [1] [2, 1] ↔
            p.2 = p.1 + ([1] : List ℤ).length ∧
              p.1 + ([1] : List ℤ).length ≤ ([2, 1] : List ℤ).length ∧
              (([2, 1] : List ℤ).drop p.1).take ([1] : List ℤ).length = [1])
        ∧ (find_sublist_indices [1] [2, 1]).Pairwise (fun p q => p.1 < q.1)) :=
  ⟨by decide, C1_span_locator_exact [1] [2, 1] (by decide)⟩

/-- C6: the scan does not skip ahead after a match; two matches whose spans
overlap (`i < j < i + len t`) are both reported, not deduplicated. -/
theorem C6_overlapping_matches_preserved (t h : List ℤ) (ht : t ≠ []) (i j : ℕ)
    (hij : i < j) (hji : j < i + t.length)
    (hi : (h.drop i).take t.length = t) (hj : (h.drop j).take t.length = t) :
    (i, i + t.length) ∈ find_sublist_indices t h ∧
      (j, j + t.length) ∈ find_sublist_indices t h := by
  constructor
  · rw [mem_find_sublist_indices]
    exact ⟨rfl, slice_eq_bound t h i ht hi, hi⟩
  · rw [mem_find_sublist_indices]
    exact ⟨rfl, slice_eq_bound t h j ht hj, hj⟩

/-- Witness for C6 with target `[1, 1]` and haystack `[1, 1, 1]`, whose matches
at positions 0 and 1 overlap. -/
theorem C6_overlapping_matches_preserved_witness :
    (([1, 1] : List ℤ) ≠ [] ∧ 0 < 1 ∧ 1 < 0 + ([1, 1] : List ℤ).length ∧
        (([1, 1, 1] : List ℤ).drop 0).take ([1, 1] : List ℤ).length = [1, 1] ∧
        (([1, 1, 1] : List ℤ).drop 1).take ([1, 1] : List ℤ).length = [1, 1]) ∧
      ((0, 0 + ([1, 1] : List ℤ).length) ∈ find_sublist_indices [1, 1] [1, 1, 1] ∧
        (1, 1 + ([1, 1] : List ℤ).length) ∈ find_sublist_indices [1, 1] [1, 1, 1]) :=
  ⟨⟨by decide, by decide, by decide, by decide, by decide⟩,
    C6_overlapping_matches_preserved [1, 1] [1, 1, 1] (by decide) 0 1 (by decide)
      (by decide) (by decide) (by decide)⟩

/-- C7: `find_sublist_indices [1, 2] [1, 2, 1, 2]` reports both contiguous
non-overlapping repeats, in order. -/
theorem C7_contiguous_repeats :
    find_sublist_indices [1, 2] [1, 2, 1, 2] = [(0, 2), (2, 4)] := by decide

/-- C8: `find_sublist_indices [1, 2] [1, 2, 3, 0, 1, 2, 3]` returns exactly
`[(0, 2), (4, 6)]`. -/
theorem C8_example_result :
    find_sublist_indices [1, 2] [1, 2, 3, 0, 1, 2, 3] = [(0, 2), (4, 6)] := by
  decide

/-- C9: a target strictly longer than the haystack yields the empty sequence. -/
theorem C9_target_longer_empty (t h : List ℤ) (hlen : h.length < t.length) :
    find_sublist_indices t h = [] := by
  rw [find_sublist_indices_eq]
  have h0 : h.length + 1 - t.length = 0 := by omega
  simp [h0]

/-- Witness for C9 with target `[1, 2]` and haystack `[1]`. -/
theorem C9_target_longer_empty_witness :
    (([1] : List ℤ).length < ([1, 2] : List ℤ).length) ∧
      find_sublist_indices [1, 2] [1] = [] :=
  ⟨by decide, C9_target_longer_empty [1, 2] [1] (by decide)⟩

/-- C10: on an empty target, `find_sublist_indices` is total and returns the
zero-width spans `(i, i)` for every `i` from `0` to `len mainlist`, i.e.
`len mainlist + 1` spans in increasing order. -/
theorem C10_empty_target_total (h : List ℤ) :
    find_sublist_indices [] h
      = (List.range (h.length + 1)).map (fun i => (i, i)) := by
  rw [find_sublist_indices_eq]
  simp

/-- C4: each of the four pooling functions applied to the singleton sequence
`[v]` returns `v` unchanged. -/
theorem C4_pooling_singleton_identity (v : List ℚ) :
    mean_pooling [v] = some v ∧ max_pooling [v] = some v ∧
      min_pooling [v] = some v ∧ last_pooling [v] = some v := by
  refine ⟨?_, rfl, rfl, rfl⟩
  simp [mean_pooling, meanVec]

/-- C5: each pooling function on the empty sequence fails with the
distinguishable error value `none` and never returns any vector. -/
theorem C5_pooling_empty_invalid :
    mean_pooling [] = none ∧ max_pooling [] = none ∧ min_pooling [] = none ∧
      last_pooling [] = none ∧
      ∀ w : List ℚ,
        mean_pooling [] ≠ some w ∧ max_pooling [] ≠ some w ∧
          min_pooling [] ≠ some w ∧ last_pooling [] ≠ some w := by
  refine ⟨rfl, rfl, rfl, rfl, fun w => ?_⟩
  refine ⟨?_, ?_, ?_, ?_⟩ <;> simp [mean_pooling, max_pooling, min_pooling,
    last_pooling]

/-- C2: for a non-empty target with at least one occurrence, and representation
sequences covering every token, the aggregated computation returns exactly the
mean pooling applied a second time across the occurrence vectors, each of which
is the mean pooling of the representation slice over its occurrence span,
collected in corpus order and span-start order. -/
theorem C2_aggregated_double_pooling (t : List ℤ)
    (corpus : List (List ℤ × List (List ℚ))) (ht : t ≠ [])
    (hw : ∀ tr ∈ corpus, tr.1.length ≤ tr.2.length)
    (hocc : occurrence_slices t corpus ≠ []) :
    sailing_rep t corpus =
      some (meanVec ((occurrence_slices t corpus).map meanVec)) := by
  have hne := occurrence_slices_ne_nil t corpus ht hw
  have hcoll := collectSome_map_mean_pooling (occurrence_slices t corpus) hne
  simp only [sailing_rep, occurrence_reps_eq, hcoll]
  apply mean_pooling_of_ne_nil
  simpa using hocc

/-- Witness for C2 with target `[5]` and one corpus text with ids `[5]` and a
single representation vector `[1, 2]`. -/
theorem C2_aggregated_double_pooling_witness :
    (([5] : List ℤ) ≠ [] ∧
        (∀ tr ∈ ([([5], [[1, 2]])] : List (List ℤ × List (List ℚ))),
          tr.1.length ≤ tr.2.length) ∧
        occurrence_slices [5] [([5], [[1, 2]])] ≠ []) ∧
      sailing_rep [5] [([5], [[1, 2]])] =
        some (meanVec ((occurrence_slices [5] [([5], [[1, 2]])]).map meanVec)) :=
  ⟨⟨by decide, by decide, by decide⟩,
    C2_aggregated_double_pooling [5] [([5], [[1, 2]])] (by decide) (by decide)
      (by decide)⟩

/-- C3: a word whose target occurs nowhere in the corpus gets the explicit
unrepresentable marker `none` — never any vector — and every row of the
aggregated table is still built from its own target, so the other rows are
unaffected. -/
theorem C3_zero_occurrences_unrepresentable (targets : List (List ℤ))
    (corpus : List (List ℤ × List (List ℚ))) (t : List ℤ)
    (hzero : ∀ tr ∈ corpus, find_sublist_indices t tr.1 = []) :
    sailing_rep t corpus = none ∧
      (∀ v : List ℚ, sailing_rep t corpus ≠ some v) ∧
      (∀ i : ℕ, (aggregated_vsm targets corpus)[i]? =
          (targets[i]?).map (fun s => sailing_rep s corpus)) := by
  have hnil := occurrence_slices_eq_nil t corpus hzero
  have hmain : sailing_rep t corpus = none := by
    simp [sailing_rep, occurrence_reps_eq, hnil, collectSome, mean_pooling]
  refine ⟨hmain, fun v => by simp [hmain], fun i => ?_⟩
  simp [aggregated_vsm]

/-- Witness for C3 with vocabulary targets `[[5], [9]]`, a corpus containing
only the token `5`, and the absent target `[9]`. -/
theorem C3_zero_occurrences_unrepresentable_witness :
    (∀ tr ∈ ([([5], [[1, 2]])] : List (List ℤ × List (List ℚ))),
        find_sublist_indices [9] tr.1 = []) ∧
      (sailing_rep [9] [([5], [[1, 2]])] = none ∧
        (∀ v : List ℚ, sailing_rep [9] [([5], [[1, 2]])] ≠ some v) ∧
        (∀ i : ℕ, (aggregated_vsm [[5], [9]] [([5], [[1, 2]])])[i]? =
            (([[5], [9]] : List (List ℤ))[i]?).map
              (fun s => sailing_rep s [([5], [[1, 2]])]))) :=
  ⟨by decide,
    C3_zero_occurrences_unrepresentable [[5], [9]] [([5], [[1, 2]])] [9]
      (by decide)⟩

end VSM04
